import Mathlib

/-!
Verification development for the News-Verifier backend (Python sources under
`backend/`). The pipeline components — article extraction (`extract.py`),
news search (`news_search.py`), the analysis client (`groq_client.py`),
the response models (`models.py`) and the `/verify` handler (`main.py`) —
are shallowly embedded as executable Lean functions. External collaborators
(the newspaper extraction engine, the SerpAPI search call, the Groq chat
completion, and `json.loads`) are modelled as oracle inputs describing their
outcome; everything downstream of those outcomes is translated from the
source line by line.

Python strings are modelled over `List Char`; whitespace is the ASCII set
used by Lean's `Char.isWhitespace` (space, tab, CR, LF), which agrees with
Python on every input the properties below exercise.
-/

/- ### Python string primitives (over `List Char`) -/

/-- Python `s.strip()` (ASCII-whitespace model). -/
def pyStripL (cs : List Char) : List Char :=
  ((cs.dropWhile Char.isWhitespace).reverse.dropWhile Char.isWhitespace).reverse

/-- Python `s.strip()` on `String`. -/
def pyStrip (s : String) : String := String.mk (pyStripL s.toList)

/-- Accumulator worker for Python `s.split()`: splits on whitespace runs,
producing no empty words. `acc` holds the current word reversed. -/
def splitWsAux : List Char → List Char → List (List Char)
  | [], acc => if acc = [] then [] else [acc.reverse]
  | c :: cs, acc =>
    if c.isWhitespace then
      if acc = [] then splitWsAux cs [] else acc.reverse :: splitWsAux cs []
    else splitWsAux cs (c :: acc)

/-- Python `s.split()` with no arguments. -/
def pySplitWsL (cs : List Char) : List (List Char) := splitWsAux cs []

/-- Space-joined concatenation, Python `' '.join(words)`. -/
def joinSpL : List (List Char) → List Char
  | [] => []
  | [w] => w
  | w :: ws => w ++ ' ' :: joinSpL ws

/-- Python `s.rsplit(' ', 1)[0]`: everything before the last space
character, or the whole string when it contains no space. -/
def lastSpaceCutL (cs : List Char) : List Char :=
  if ' ' ∈ cs then (((cs.reverse).dropWhile (fun c => !(c == ' '))).drop 1).reverse
  else cs

/-- Python integer-literal parse used by `int(str)`: optional sign and a
nonempty digit run (underscore separators are not modelled). -/
def pyDigits? (cs : List Char) : Option Int :=
  if cs = [] then none
  else if cs.all Char.isDigit then
    some (cs.foldl (fun a c => a * 10 + ((c.toNat : Int) - 48)) 0)
  else none

/-- Python `int(s)` on a string: strips whitespace, then sign + digits. -/
def pyParseIntL (cs : List Char) : Option Int :=
  match pyStripL cs with
  | '+' :: rest => pyDigits? rest
  | '-' :: rest => (pyDigits? rest).map (fun n => -n)
  | t => pyDigits? t

/- ### JSON values and Python dicts -/

/-- JSON values as produced by `json.loads`. Numbers are modelled as
integers; every claim about non-integer numbers concerns only the clamping
into `[0,100]`, which truncation composed with clamping also satisfies. -/
inductive Json where
  | null
  | bool (b : Bool)
  | num (n : Int)
  | str (s : String)
  | arr (elems : List Json)
  | obj (fields : List (String × Json))

/-- A Python `dict[str, Any]` as an association list; `json.loads` keeps
the last binding of a duplicated key, so lookup is from the right. -/
abbrev PyDict := List (String × Json)

/-- Python `d[k]` / `d.get(k)`: last binding wins. -/
def dictGet (d : PyDict) (k : String) : Option Json := (d.reverse).lookup k

/-- Python `k in d`. -/
def dictHas (d : PyDict) (k : String) : Bool := (dictGet d k).isSome

/-- Python `d[k] = v`. (Position of an existing key is immaterial to every
property below, so the rebound key is moved to the end.) -/
def dictSet (d : PyDict) (k : String) (v : Json) : PyDict :=
  (d.filter (fun kv => kv.1 != k)) ++ [(k, v)]

/-- Python `int(x)` over a parsed JSON value: numbers kept, booleans map
to 0/1, integer-literal strings parsed, everything else raises
(`TypeError`/`ValueError`), modelled as `none`. -/
def pyToInt : Json → Option Int
  | .num n => some n
  | .bool b => some (if b then 1 else 0)
  | .str s => pyParseIntL s.toList
  | _ => none

/- ### groq_client.py : GroqClient.verify_news -/

/-- Outcome of `json.loads` applied to the (fence-stripped) response text:
either a `JSONDecodeError` or a parsed value. -/
inductive ParseOutcome where
  | jsonErr (msg : String)
  | parsed (j : Json)

/-- Outcome of the chat-completion call in `GroqClient.verify_news`:
either the network call raised (transport failure), or it returned text
whose parse outcome is recorded. -/
inductive GroqCall where
  | transportErr (msg : String)
  | response (p : ParseOutcome)

/-- Python exceptions distinguished by `verify_news`: only
`json.JSONDecodeError` is caught by the inner handler (groq_client.py:220);
plain `ValueError`/`TypeError` (missing field, failed `int()`) fall through
to the outer `except Exception` (groq_client.py:232). -/
inductive PyErr where
  | jsonDecode (msg : String)
  | valueErr (msg : String)
  | typeErr (msg : String)

/-- `str(e)` of a modelled exception. -/
def PyErr.msg : PyErr → String
  | .jsonDecode m => m
  | .valueErr m => m
  | .typeErr m => m

/-- Exception raised by Python `int(x)` when coercion fails
(message approximates CPython's wording; only the exception class and the
fact that it is not a `JSONDecodeError` matter). -/
def pyIntErr : Json → PyErr
  | .str s => .valueErr ("invalid literal for int() with base 10: " ++ s)
  | _ => .typeErr "int() argument must be a string, a bytes-like object or a real number, not NoneType"

/-- groq_client.py:199-218, the body of the inner `try`: validate required
fields, coerce and clamp `confidence`, default `evidence_links`. A non-object
top-level JSON value makes the membership test `field not in result` raise
`TypeError` (or a missing-field `ValueError` for lists); either way the
exception is not a `JSONDecodeError` and reaches the outer handler, so it is
modelled as a single `TypeError`. -/
def groqParseBody (p : ParseOutcome) : Except PyErr PyDict :=
  match p with
  | .jsonErr m => .error (.jsonDecode m)
  | .parsed (.obj d) =>
    if !(dictHas d "verdict") then .error (.valueErr "Missing required field: verdict")
    else if !(dictHas d "confidence") then .error (.valueErr "Missing required field: confidence")
    else if !(dictHas d "summary") then .error (.valueErr "Missing required field: summary")
    else
      let cval := (dictGet d "confidence").getD .null
      match pyToInt cval with
      | none => .error (pyIntErr cval)
      | some n =>
        let d := dictSet d "confidence" (.num (max 0 (min 100 n)))
        let d := if dictHas d "evidence_links" then d else dictSet d "evidence_links" (.arr [])
        .ok d
  | .parsed _ => .error (.typeErr "argument of type is not iterable")

/-- Fallback dict of the inner `except json.JSONDecodeError`
(groq_client.py:225-230). -/
def groqFallbackParse : PyDict :=
  [("verdict", .str "Unverified"), ("confidence", .num 0),
   ("summary", .str "Unable to verify: AI response parsing failed"),
   ("evidence_links", .arr [])]

/-- Fallback dict of the outer `except Exception`
(groq_client.py:236-241). -/
def groqFallbackTech (m : String) : PyDict :=
  [("verdict", .str "Unverified"), ("confidence", .num 0),
   ("summary", .str ("Verification failed due to technical error: " ++ m)),
   ("evidence_links", .arr [])]

/-- The inner `try`/`except json.JSONDecodeError` of `verify_news`. -/
def groqInner (p : ParseOutcome) : Except PyErr PyDict :=
  match groqParseBody p with
  | .error (.jsonDecode _) => .ok groqFallbackParse
  | r => r

/-- `GroqClient.verify_news` (groq_client.py:146-241) as a function of the
collaborator-call outcome. The outer `except Exception` absorbs both a
transport failure of the chat-completion call and any exception escaping the
inner handler, so the function is total: it always returns a dict. -/
def groqVerifyNews : GroqCall → PyDict
  | .transportErr m => groqFallbackTech m
  | .response p =>
    match groqInner p with
    | .ok d => d
    | .error e => groqFallbackTech e.msg

/- ### models.py : VerifyResponse and its verdict validator -/

/-- The allowed verdicts (models.py:76). -/
def allowedVerdicts : List String := ["True", "False", "Misleading", "Unverified"]

/-- Python `str.lower` modelled by ASCII lowercasing. The comparisons below
only ever test equality with the all-ASCII strings in `allowedVerdicts`, on
which the two functions agree (no non-ASCII character lowercases into the
letters these words use). -/
def pyLower (s : String) : String := String.mk (s.toList.map Char.toLower)

/-- `VerifyResponse.validate_verdict` (models.py:71-83): exact match kept,
else first case-insensitive match against the allowed list, else
`"Unverified"`. -/
def validate_verdict (v : String) : String :=
  if v ∈ allowedVerdicts then v
  else
    match allowedVerdicts.find? (fun a => pyLower v == pyLower a) with
    | some a => a
    | none => "Unverified"

/-- The validated `VerifyResponse` model (models.py:48-83). -/
structure VerifyResponse where
  verdict : String
  confidence : Int
  summary : String
  evidence_links : List String
deriving DecidableEq, Repr

/-- Pydantic v1 coercion into a `str` field: strings kept, numbers and
booleans stringified, everything else rejected. -/
def pyStrField : Json → Option String
  | .str s => some s
  | .num n => some (toString n)
  | .bool b => some (if b then "True" else "False")
  | _ => none

/-- Pydantic v1 coercion into an `int` field. -/
def pyIntField : Json → Option Int
  | .num n => some n
  | .bool b => some (if b then 1 else 0)
  | .str s => pyParseIntL s.toList
  | _ => none

/-- Element-wise pydantic `str` coercion of a JSON list, failing when any
element fails. -/
def strElems? : List Json → Option (List String)
  | [] => some []
  | x :: xs =>
    match pyStrField x, strElems? xs with
    | some s, some l => some (s :: l)
    | _, _ => none

/-- Pydantic v1 coercion into a `List[str]` field. -/
def pyStrListField : Json → Option (List String)
  | .arr xs => strElems? xs
  | _ => none

/-- `VerifyResponse(**analysis)` (models.py:48-83 applied at main.py:218):
field presence and type validation, the `ge=0, le=100` bounds on
`confidence`, the `validate_verdict` validator, and the `[]` default for
`evidence_links`. A validation failure raises, modelled as `.error`. -/
def mkVerifyResponse (d : PyDict) : Except String VerifyResponse :=
  match dictGet d "verdict" with
  | none => .error "field required: verdict"
  | some jv =>
    match pyStrField jv with
    | none => .error "str type expected: verdict"
    | some v =>
      match dictGet d "confidence" with
      | none => .error "field required: confidence"
      | some jc =>
        match pyIntField jc with
        | none => .error "value is not a valid integer: confidence"
        | some c =>
          if c < 0 ∨ 100 < c then .error "confidence out of bounds"
          else
            match dictGet d "summary" with
            | none => .error "field required: summary"
            | some js =>
              match pyStrField js with
              | none => .error "str type expected: summary"
              | some s =>
                match pyStrListField ((dictGet d "evidence_links").getD (.arr [])) with
                | none => .error "value is not a valid list: evidence_links"
                | some links => .ok ⟨validate_verdict v, c, s, links⟩

/- ### extract.py : ArticleExtractor -/

/-- Outcome of the newspaper collaborator (`Article(url).download()` +
`.parse()`) for one URL: a page with its (possibly empty) title and body
text, or a raised exception. -/
inductive FetchOutcome where
  | page (title : String) (text : String)
  | raised (msg : String)

/-- `ArticleExtractor._extract_sync` (extract.py:90-119): prepend
`HEADLINE:` when a title is present, strip, return `None` on empty text or
any exception. -/
def extractSync (fetch : String → FetchOutcome) (url : String) : Option String :=
  match fetch url with
  | .raised _ => none
  | .page title text =>
    let t := if title ≠ "" then "HEADLINE: " ++ title ++ "\n\n" ++ text else text
    if t ≠ "" then some (pyStrip t) else none

/-- `ArticleExtractor.extract_from_url` (extract.py:27-57): run
`_extract_sync` in the executor; a falsy result (None or empty string)
becomes `None`; the `except Exception` at extract.py:55 is unreachable
because `_extract_sync` already absorbs every exception. -/
def extract_from_url (fetch : String → FetchOutcome) (url : String) : Option String :=
  match extractSync fetch url with
  | some t => if t ≠ "" then some t else none
  | none => none

/-- Python `url_to_text[url] = v` on the string-valued dict of
`extract_multiple`: replace in place if present, else append. -/
def strDictSet (d : List (String × Option String)) (k : String) (v : Option String) :
    List (String × Option String) :=
  if (d.lookup k).isSome then d.map (fun kv => if kv.1 == k then (k, v) else kv)
  else d ++ [(k, v)]

/-- `ArticleExtractor.extract_multiple` (extract.py:156-191):
`asyncio.gather(..., return_exceptions=True)` over `extract_from_url`, then
the url → text dict. `extract_from_url` is total, so the
`isinstance(result, Exception)` branch never fires and the outer
`except Exception` (extract.py:189-191) is unreachable; per-URL outcomes are
independent applications of `extract_from_url`. -/
def extract_multiple (fetch : String → FetchOutcome) (urls : List String) :
    List (String × Option String) :=
  (urls.zip (urls.map (fun u => extract_from_url fetch u))).foldl
    (fun d p => strDictSet d p.1 p.2) []

/- ### news_search.py : NewsSearcher -/

/-- The URL-shaped-token test of news_search.py:119,
`word.startswith(("http://", "https://", "www."))`. -/
def urlTokenL (w : List Char) : Bool :=
  "http://".toList.isPrefixOf w || "https://".toList.isPrefixOf w ||
    "www.".toList.isPrefixOf w

/-- `NewsSearcher._prepare_search_query` (news_search.py:102-129), word
list after URL-token filtering: first 200 characters, stripped, split on
whitespace, tokens with an `http://`/`https://`/`www.` prefix removed. -/
def wordsOfL (cs : List Char) : List (List Char) :=
  (pySplitWsL (pyStripL (cs.take 200))).filter (fun w => !(urlTokenL w))

/-- `NewsSearcher._prepare_search_query` (news_search.py:102-129): rejoin
the filtered words; if longer than 150 characters, truncate to 150 and cut
back at the last space. -/
def prepareSearchQueryL (cs : List Char) : List Char :=
  if 150 < (joinSpL (wordsOfL cs)).length then
    lastSpaceCutL ((joinSpL (wordsOfL cs)).take 150)
  else joinSpL (wordsOfL cs)

/-- `_prepare_search_query` on `String`. -/
def pyPrepareSearchQuery (s : String) : String := String.mk (prepareSearchQueryL s.toList)

/-- One entry of SerpAPI's result lists; every field is optional because the
source reads them with `item.get(..., "")`. -/
structure SerpItem where
  title : Option String
  link : Option String
  source : Option String
  snippet : Option String
  date : Option String
  displayed_link : Option String

/-- The SerpAPI `get_dict()` payload: the `news_results` and
`organic_results` keys may each be absent. -/
structure SerpResult where
  news_results : Option (List SerpItem)
  organic_results : Option (List SerpItem)

/-- Outcome of the SerpAPI search call: payload or raised exception. -/
inductive SerpOutcome where
  | ok (r : SerpResult)
  | raised (msg : String)

/-- A normalized related-article dict as built by `search_related_news`
(news_search.py:74-81, 86-92): every key present, string-valued. -/
structure Article where
  title : String
  url : String
  source : String
  snippet : String
  published_date : String
deriving DecidableEq, Repr

/-- `NewsSearcher.search_related_news` (news_search.py:33-100): news
results first (up to `n`), backfilled from organic results when fewer than
`n`; the `except Exception` at news_search.py:98-100 absorbs any
collaborator failure into the empty list, so the function never raises.
(The query string passed to the collaborator is prepared by
`_prepare_search_query`; it only influences which `SerpOutcome` the
collaborator produces, which is an input here.) -/
def search_related_news (serp : SerpOutcome) (n : Nat) : List Article :=
  match serp with
  | .raised _ => []
  | .ok r =>
    let fromNews :=
      match r.news_results with
      | some items => (items.take n).map (fun it =>
          ⟨it.title.getD "", it.link.getD "", it.source.getD "", it.snippet.getD "",
           it.date.getD ""⟩)
      | none => []
    if fromNews.length < n then
      match r.organic_results with
      | some items => fromNews ++ (items.take (n - fromNews.length)).map (fun it =>
          ⟨it.title.getD "", it.link.getD "", it.displayed_link.getD "", it.snippet.getD "", ""⟩)
      | none => fromNews
    else fromNews

/- ### main.py : the /verify handler -/

/-- Outcome of an awaited call as observed by the handler: a returned value
or a raised exception. -/
inductive CallOutcome (α : Type) where
  | val (a : α)
  | raised (msg : String)

/-- An HTTP error raised via `HTTPException`. -/
structure HttpErr where
  status : Nat
  detail : String
deriving DecidableEq, Repr

/-- main.py:128, `request.content.startswith(("http://", "https://"))`. -/
def isUrlContent (s : String) : Bool :=
  "http://".toList.isPrefixOf s.toList || "https://".toList.isPrefixOf s.toList

/-- `urlparse(url).netloc` for an `http://`/`https://` URL: the characters
after the scheme separator up to the first `/`, `?` or `#`. (The `;params`
refinement of `urlparse` is not modelled; no property here exercises it.) -/
def urlNetlocL (cs : List Char) : List Char :=
  let rest := if "https://".toList.isPrefixOf cs then cs.drop 8 else cs.drop 7
  rest.takeWhile (fun c => !(c == '/' || c == '?' || c == '#'))

/-- `urlparse(url).path` for an `http://`/`https://` URL: from the first
`/` after the authority up to `?` or `#`, empty when there is none. -/
def urlPathL (cs : List Char) : List Char :=
  let rest := if "https://".toList.isPrefixOf cs then cs.drop 8 else cs.drop 7
  match rest.dropWhile (fun c => !(c == '/' || c == '?' || c == '#')) with
  | '/' :: tail => '/' :: tail.takeWhile (fun c => !(c == '?' || c == '#'))
  | _ => []

/-- The synthetic query of main.py:144:
`f"News article from (netloc) - (path with / replaced by space)"`. -/
def degradedQuery (content : String) : String :=
  "News article from " ++ String.mk (urlNetlocL content.toList) ++ " - " ++
    String.mk ((urlPathL content.toList).map (fun c => if c == '/' then ' ' else c))

/-- Result of Step 1 of the handler (main.py:127-151). -/
structure Resolved where
  main_content : String
  extraction_failed : Bool
deriving DecidableEq, Repr

/-- main.py:127-151 as a function of the extraction-call outcome: URL-shaped
content is replaced by the extracted text when it is truthy and longer than
50 characters; otherwise `extraction_failed` is set and a synthetic query
derived from the URL host and path is substituted (main.py:139-144); if the
extraction call raised, the query is `"News from (netloc)"` (main.py:145-151). -/
def resolveWith (content : String) (callRes : CallOutcome (Option String)) : Resolved :=
  if isUrlContent content then
    match callRes with
    | .val (some t) => if 50 < t.length then ⟨t, false⟩ else ⟨degradedQuery content, true⟩
    | .val none => ⟨degradedQuery content, true⟩
    | .raised _ => ⟨"News from " ++ String.mk (urlNetlocL content.toList), true⟩
  else ⟨content, false⟩

/-- Step 1 composed with the real extraction component: `extract_from_url`
absorbs every exception (extract.py:55-57), so the `raised` branch of
`resolveWith` is unreachable here. -/
def resolveContent (content : String) (fetch : String → FetchOutcome) : Resolved :=
  resolveWith content (.val (extract_from_url fetch content))

/-- One entry of `related_contents` (main.py:191-196). -/
structure RelatedContent where
  title : String
  source : String
  url : String
  text : String
deriving DecidableEq, Repr

/-- The Step 3 loop (main.py:184-200): for each candidate article, extract
its text; when the text is truthy, append the enriched dict to
`related_contents` and the URL to `evidence_links`; the `except` at
main.py:198-200 is unreachable because `extract_from_url` is total and
every article dict built by `search_related_news` carries its keys.
Returns `(related_contents, evidence_links)`. -/
def evidenceLoop (fetch : String → FetchOutcome) :
    List Article → List RelatedContent × List String
  | [] => ([], [])
  | a :: rest =>
    let tail := evidenceLoop fetch rest
    match extract_from_url fetch a.url with
    | some t =>
      if t ≠ "" then
        (⟨a.title, a.source, a.url, t.take 1000⟩ :: tail.1, a.url :: tail.2)
      else tail
    | none => tail

/-- Step 4 (main.py:204-225): run the analysis (its outcome, including the
effect of the prompt built from `main_content` and the `related_contents`
half of `evidenceLoop`, is the `groq` input), overwrite `evidence_links`
with the first 5 collected links, and construct the response model; a
construction failure is caught at main.py:220-225 as a 500. -/
def analyzeAndRespond (fetch : String → FetchOutcome) (arts : List Article)
    (groq : GroqCall) : Except HttpErr VerifyResponse :=
  match mkVerifyResponse (dictSet (groqVerifyNews groq) "evidence_links"
      (.arr ((((evidenceLoop fetch arts).2).take 5).map Json.str))) with
  | .ok resp => .ok resp
  | .error m => .error ⟨500, "AI analysis failed: " ++ m⟩

/-- The `/verify` handler (main.py:106-234) as a function of the
collaborator-call outcomes. Step 2's search query
(`main_content[:500]` when extraction succeeded, else the raw content,
main.py:157) only influences which articles the search outcome carries. If
the search call raised while a URL extraction had already failed, the
handler short-circuits with the degraded response of main.py:175-180, whose
`evidence_links` is the original URL. -/
def verifyHandler (content : String) (fetch : String → FetchOutcome)
    (searchRes : CallOutcome (List Article)) (groq : GroqCall) :
    Except HttpErr VerifyResponse :=
  let r := resolveContent content fetch
  match searchRes with
  | .raised e =>
    if r.extraction_failed && isUrlContent content then
      .ok ⟨validate_verdict "Unverified", 0,
        "Unable to extract content from the URL and search for related articles failed. Please try: 1) Check if the URL is accessible, 2) Try copying the article text directly, or 3) Verify your SerpAPI key is valid. Error: " ++ e,
        [content]⟩
    else analyzeAndRespond fetch [] groq
  | .val arts => analyzeAndRespond fetch arts groq

/-- The `/verify` pipeline with every component taken from the source:
`search_related_news` absorbs collaborator failures into `[]`
(news_search.py:98-100), so the handler's search call never raises and the
`raised` branch of `verifyHandler` is unreachable in this composition. -/
def fullVerify (content : String) (fetch : String → FetchOutcome)
    (serp : SerpOutcome) (groq : GroqCall) : Except HttpErr VerifyResponse :=
  verifyHandler content fetch (.val (search_related_news serp 10)) groq

/- ### Shared helper lemmas -/

/-- Removing the bindings of a different key does not change a lookup. -/
theorem lookup_filter_ne {β : Type} (k k' : String) (h : k ≠ k') (l : List (String × β)) :
    (l.filter (fun kv => kv.1 != k')).lookup k = l.lookup k := by
  induction l with
  | nil => rfl
  | cons a l ih =>
    obtain ⟨b, c⟩ := a
    by_cases hb : b = k'
    · subst hb
      have hk : (k == b) = false := by simpa using h
      simp [List.filter_cons, List.lookup, hk, ih]
    · have hb' : (b != k') = true := by simpa using hb
      simp only [List.filter_cons, hb', if_true]
      by_cases hk : k = b
      · subst hk; simp [List.lookup]
      · have hk' : (k == b) = false := by simpa using hk
        simp [List.lookup, hk', ih]

/-- `dictGet` after `dictSet` of the same key. -/
theorem dictGet_set_self (d : PyDict) (k : String) (v : Json) :
    dictGet (dictSet d k v) k = some v := by
  simp [dictGet, dictSet, List.reverse_append, List.lookup]

/-- `dictGet` after `dictSet` of a different key. -/
theorem dictGet_set_ne (d : PyDict) (k k' : String) (v : Json) (h : k ≠ k') :
    dictGet (dictSet d k' v) k = dictGet d k := by
  have hk : (k == k') = false := by simpa using h
  simp only [dictGet, dictSet, List.reverse_append, List.reverse_cons, List.reverse_nil,
    List.nil_append, List.singleton_append, List.lookup, hk]
  rw [← List.filter_reverse]
  exact lookup_filter_ne k k' h d.reverse

/-- `dictHas` after `dictSet` of the same key. -/
theorem dictHas_set_self (d : PyDict) (k : String) (v : Json) :
    dictHas (dictSet d k v) k = true := by
  simp [dictHas, dictGet_set_self]

/-- `dictHas` after `dictSet` of a different key. -/
theorem dictHas_set_ne (d : PyDict) (k k' : String) (v : Json) (h : k ≠ k') :
    dictHas (dictSet d k' v) k = dictHas d k := by
  simp [dictHas, dictGet_set_ne _ _ _ _ h]

/-- Pydantic list-of-strings coercion round-trips on a list of JSON strings. -/
theorem strElems_map_str (l : List String) :
    strElems? (l.map Json.str) = some l := by
  induction l with
  | nil => rfl
  | cons a l ih => simp [strElems?, pyStrField, ih]

/-- `extract_from_url` never returns the empty string: a falsy extraction
result is converted to `None` (extract.py:48-53). -/
theorem extract_from_url_ne_empty (fetch : String → FetchOutcome) (u : String) :
    extract_from_url fetch u ≠ some "" := by
  unfold extract_from_url
  cases extractSync fetch u with
  | none => simp
  | some t => by_cases h : t = "" <;> simp [h]

/-- The evidence links collected by the Step 3 loop are exactly the URLs of
the collected related-content entries, in order. -/
theorem evidenceLoop_align (fetch : String → FetchOutcome) (arts : List Article) :
    (evidenceLoop fetch arts).2 = ((evidenceLoop fetch arts).1).map RelatedContent.url := by
  induction arts with
  | nil => rfl
  | cons a rest ih =>
    simp only [evidenceLoop]
    cases h : extract_from_url fetch a.url with
    | none => simpa using ih
    | some t => by_cases ht : t = "" <;> simp [ht, ih]

/-- The evidence links collected by the Step 3 loop are the candidate URLs
whose extraction succeeded, in discovery order. -/
theorem evidenceLoop_links (fetch : String → FetchOutcome) (arts : List Article) :
    (evidenceLoop fetch arts).2 =
      (arts.map Article.url).filter (fun u => (extract_from_url fetch u).isSome) := by
  induction arts with
  | nil => rfl
  | cons a rest ih =>
    simp only [evidenceLoop, List.map_cons, List.filter_cons]
    cases h : extract_from_url fetch a.url with
    | none => simp [h, ih]
    | some t =>
      have ht : t ≠ "" := by
        intro e
        exact extract_from_url_ne_empty fetch a.url (e ▸ h)
      simp [h, ht, ih]

/-- A successfully constructed `VerifyResponse` has its confidence inside
the pydantic bounds `ge=0, le=100` (models.py:56-61). -/
theorem mkVerifyResponse_ok_confidence (d : PyDict) (r : VerifyResponse)
    (h : mkVerifyResponse d = .ok r) : 0 ≤ r.confidence ∧ r.confidence ≤ 100 := by
  unfold mkVerifyResponse at h
  repeat' split at h
  any_goals simp at h
  cases h
  rename_i hb _ _ _ _
  refine ⟨?_, ?_⟩ <;> simp only [] <;> omega

/-- A successfully constructed `VerifyResponse` takes its `evidence_links`
from the JSON string list stored under that key. -/
theorem mkVerifyResponse_ok_links (d : PyDict) (r : VerifyResponse) (l : List String)
    (hd : dictGet d "evidence_links" = some (.arr (l.map Json.str)))
    (h : mkVerifyResponse d = .ok r) : r.evidence_links = l := by
  unfold mkVerifyResponse at h
  rw [hd] at h
  simp only [Option.getD_some, pyStrListField, strElems_map_str] at h
  repeat' split at h
  any_goals simp at h
  cases h
  rfl

/-- Constructing a `VerifyResponse` from a dict holding a string verdict, an
in-range integer confidence, a string summary and a string-list
`evidence_links` binding succeeds and applies the verdict validator. -/
theorem mk_on_set_links (a : PyDict) (l : List String) (v : String) (c : Int) (s : String)
    (hv : dictGet a "verdict" = some (.str v)) (hc : dictGet a "confidence" = some (.num c))
    (hs : dictGet a "summary" = some (.str s)) (h0 : 0 ≤ c) (h1 : c ≤ 100) :
    mkVerifyResponse (dictSet a "evidence_links" (.arr (l.map Json.str))) =
      .ok ⟨validate_verdict v, c, s, l⟩ := by
  have gv : dictGet (dictSet a "evidence_links" (.arr (l.map Json.str))) "verdict" =
      some (.str v) := by rw [dictGet_set_ne _ _ _ _ (by decide)]; exact hv
  have gc : dictGet (dictSet a "evidence_links" (.arr (l.map Json.str))) "confidence" =
      some (.num c) := by rw [dictGet_set_ne _ _ _ _ (by decide)]; exact hc
  have gs : dictGet (dictSet a "evidence_links" (.arr (l.map Json.str))) "summary" =
      some (.str s) := by rw [dictGet_set_ne _ _ _ _ (by decide)]; exact hs
  have gl : dictGet (dictSet a "evidence_links" (.arr (l.map Json.str))) "evidence_links" =
      some (.arr (l.map Json.str)) := dictGet_set_self _ _ _
  unfold mkVerifyResponse
  rw [gv, gc, gs, gl]
  simp only [pyStrField, pyIntField, Option.getD_some, pyStrListField, strElems_map_str]
  rw [if_neg (by omega)]

/-- The full pipeline is the handler applied to a search stage that never
raises. -/
theorem fullVerify_eq (content : String) (fetch : String → FetchOutcome)
    (serp : SerpOutcome) (groq : GroqCall) :
    fullVerify content fetch serp groq =
      analyzeAndRespond fetch (search_related_news serp 10) groq := rfl


/-- Shape of `verify_news` on a parsed JSON object: the three
required-field checks in order, then the `int()` coercion with clamping and
the `evidence_links` default; every failure funnels into the outer
technical-error fallback because none of the raised exceptions is a
`JSONDecodeError`. -/
theorem groqVerifyNews_obj (d : List (String × Json)) :
    groqVerifyNews (.response (.parsed (.obj d))) =
      if dictHas d "verdict" = false then
        groqFallbackTech "Missing required field: verdict"
      else if dictHas d "confidence" = false then
        groqFallbackTech "Missing required field: confidence"
      else if dictHas d "summary" = false then
        groqFallbackTech "Missing required field: summary"
      else
        match pyToInt ((dictGet d "confidence").getD .null) with
        | none => groqFallbackTech (PyErr.msg (pyIntErr ((dictGet d "confidence").getD .null)))
        | some n =>
          if dictHas (dictSet d "confidence" (.num (max 0 (min 100 n)))) "evidence_links" then
            dictSet d "confidence" (.num (max 0 (min 100 n)))
          else
            dictSet (dictSet d "confidence" (.num (max 0 (min 100 n)))) "evidence_links"
              (.arr []) := by
  simp only [groqVerifyNews, groqInner, groqParseBody]
  by_cases h1 : dictHas d "verdict"
  case neg =>
    simp only [Bool.not_eq_true] at h1
    simp [h1, PyErr.msg]
  case pos =>
  by_cases h2 : dictHas d "confidence"
  case neg =>
    simp only [Bool.not_eq_true] at h2
    simp [h1, h2, PyErr.msg]
  case pos =>
  by_cases h3 : dictHas d "summary"
  case neg =>
    simp only [Bool.not_eq_true] at h3
    simp [h1, h2, h3, PyErr.msg]
  case pos =>
  simp only [h1, h2, h3, Bool.not_true, Bool.false_eq_true, if_false]
  cases hpi : pyToInt ((dictGet d "confidence").getD .null) with
  | none => cases hv : (dictGet d "confidence").getD .null <;> simp_all [pyIntErr, PyErr.msg]
  | some n => simp

/-- The confidence entry of every `verify_news` result dict is an integer
in `[0,100]`. -/
theorem groqConfInRange (call : GroqCall) :
    ∃ c : Int, dictGet (groqVerifyNews call) "confidence" = some (.num c) ∧
      0 ≤ c ∧ c ≤ 100 := by
  have hb : ∀ m : String, dictGet (groqFallbackTech m) "confidence" = some (.num 0) :=
    fun m => rfl
  cases call with
  | transportErr m => exact ⟨0, hb m, by norm_num, by norm_num⟩
  | response p =>
    cases p with
    | jsonErr m => exact ⟨0, rfl, by norm_num, by norm_num⟩
    | parsed j =>
      cases j with
      | null => exact ⟨0, rfl, by norm_num, by norm_num⟩
      | bool b => exact ⟨0, rfl, by norm_num, by norm_num⟩
      | num n => exact ⟨0, rfl, by norm_num, by norm_num⟩
      | str s => exact ⟨0, rfl, by norm_num, by norm_num⟩
      | arr xs => exact ⟨0, rfl, by norm_num, by norm_num⟩
      | obj d =>
        rw [groqVerifyNews_obj]
        by_cases h1 : dictHas d "verdict" = false
        · exact ⟨0, by rw [if_pos h1]; exact hb _, by norm_num, by norm_num⟩
        rw [if_neg h1]
        by_cases h2 : dictHas d "confidence" = false
        · exact ⟨0, by rw [if_pos h2]; exact hb _, by norm_num, by norm_num⟩
        rw [if_neg h2]
        by_cases h3 : dictHas d "summary" = false
        · exact ⟨0, by rw [if_pos h3]; exact hb _, by norm_num, by norm_num⟩
        rw [if_neg h3]
        cases hpi : pyToInt ((dictGet d "confidence").getD .null) with
        | none => exact ⟨0, hb _, by norm_num, by norm_num⟩
        | some n =>
          refine ⟨max 0 (min 100 n), ?_, le_max_left 0 _,
            max_le (by norm_num) (min_le_left 100 n)⟩
          dsimp only
          by_cases h4 :
              dictHas (dictSet d "confidence" (.num (max 0 (min 100 n)))) "evidence_links"
          · rw [if_pos h4]; exact dictGet_set_self _ _ _
          · rw [if_neg h4,
              dictGet_set_ne _ _ _ _ (by decide : "confidence" ≠ "evidence_links")]
            exact dictGet_set_self _ _ _

/-- C9: `GroqClient.verify_news` is total over collaborator outcomes — for
every outcome of the chat-completion call (transport failure, unparseable
response, or any parsed JSON value) it returns a dict carrying all four of
the keys `verdict`, `confidence`, `summary` and `evidence_links`, and
(being a total function of that outcome into dicts) it propagates no
exception to its caller. -/
theorem c9_groq_verify_news_total (call : GroqCall) :
    dictHas (groqVerifyNews call) "verdict" = true ∧
    dictHas (groqVerifyNews call) "confidence" = true ∧
    dictHas (groqVerifyNews call) "summary" = true ∧
    dictHas (groqVerifyNews call) "evidence_links" = true := by
  have hb : ∀ m : String,
      dictHas (groqFallbackTech m) "verdict" = true ∧
      dictHas (groqFallbackTech m) "confidence" = true ∧
      dictHas (groqFallbackTech m) "summary" = true ∧
      dictHas (groqFallbackTech m) "evidence_links" = true :=
    fun m => ⟨rfl, rfl, rfl, rfl⟩
  cases call with
  | transportErr m => exact hb m
  | response p =>
    cases p with
    | jsonErr m => exact ⟨rfl, rfl, rfl, rfl⟩
    | parsed j =>
      cases j with
      | null => exact ⟨rfl, rfl, rfl, rfl⟩
      | bool b => exact ⟨rfl, rfl, rfl, rfl⟩
      | num n => exact ⟨rfl, rfl, rfl, rfl⟩
      | str s => exact ⟨rfl, rfl, rfl, rfl⟩
      | arr xs => exact ⟨rfl, rfl, rfl, rfl⟩
      | obj d =>
        rw [groqVerifyNews_obj]
        by_cases h1 : dictHas d "verdict" = false
        · rw [if_pos h1]; exact hb _
        rw [if_neg h1]
        by_cases h2 : dictHas d "confidence" = false
        · rw [if_pos h2]; exact hb _
        rw [if_neg h2]
        by_cases h3 : dictHas d "summary" = false
        · rw [if_pos h3]; exact hb _
        rw [if_neg h3]
        have h1t : dictHas d "verdict" = true := by
          cases hx : dictHas d "verdict" with
          | false => exact absurd hx h1
          | true => rfl
        have h3t : dictHas d "summary" = true := by
          cases hx : dictHas d "summary" with
          | false => exact absurd hx h3
          | true => rfl
        cases hpi : pyToInt ((dictGet d "confidence").getD .null) with
        | none => exact hb _
        | some n =>
          dsimp only
          by_cases h4 :
              dictHas (dictSet d "confidence" (.num (max 0 (min 100 n)))) "evidence_links"
          · rw [if_pos h4]
            refine ⟨?_, dictHas_set_self _ _ _, ?_, h4⟩
            · rw [dictHas_set_ne _ _ _ _ (by decide : "verdict" ≠ "confidence")]; exact h1t
            · rw [dictHas_set_ne _ _ _ _ (by decide : "summary" ≠ "confidence")]; exact h3t
          · rw [if_neg h4]
            refine ⟨?_, ?_, ?_, dictHas_set_self _ _ _⟩
            · rw [dictHas_set_ne _ _ _ _ (by decide : "verdict" ≠ "evidence_links"),
                dictHas_set_ne _ _ _ _ (by decide : "verdict" ≠ "confidence")]
              exact h1t
            · rw [dictHas_set_ne _ _ _ _ (by decide : "confidence" ≠ "evidence_links")]
              exact dictHas_set_self _ _ _
            · rw [dictHas_set_ne _ _ _ _ (by decide : "summary" ≠ "evidence_links"),
                dictHas_set_ne _ _ _ _ (by decide : "summary" ≠ "confidence")]
              exact h3t

/-- C10: in the Step 3 evidence-collection loop of the `/verify` handler,
the collected `evidence_links` and `related_contents` sequences stay
aligned — the links are exactly the `url` fields of the related-content
entries shown to the model, index by index and in the same order (before
the final cap at 5). -/
theorem c10_links_contents_aligned (fetch : String → FetchOutcome) (arts : List Article) :
    (evidenceLoop fetch arts).2 = ((evidenceLoop fetch arts).1).map RelatedContent.url ∧
    (evidenceLoop fetch arts).2.length = (evidenceLoop fetch arts).1.length ∧
    ∀ i : Nat, (evidenceLoop fetch arts).2[i]? =
      ((evidenceLoop fetch arts).1[i]?).map RelatedContent.url := by
  refine ⟨evidenceLoop_align fetch arts, ?_, ?_⟩
  · rw [evidenceLoop_align fetch arts]; simp
  · intro i
    rw [evidenceLoop_align fetch arts]
    simp

/-- C1 counterexample: a transport-level failure of the analysis
collaborator call ("Connection error") does not surface as a 5xx — the
`/verify` pipeline returns a successful (200) response with an Unverified
verdict, because `GroqClient.verify_news` catches every exception
(groq_client.py:232-241) before the handler's 500 branch (main.py:220-225)
can see it. -/
theorem c1_counterexample :
    fullVerify "The weather is fine today." (fun _ => .raised "net down")
      (.ok ⟨none, none⟩) (.transportErr "Connection error") =
    .ok ⟨"Unverified", 0, "Verification failed due to technical error: Connection error",
      []⟩ := rfl

/-- C1 (amended): for every request content, extraction behaviour and
search outcome, a transport-level failure of the analysis collaborator is
absorbed inside `GroqClient.verify_news` and the `/verify` handler returns
a 200 response whose verdict is Unverified, whose confidence is 0 and whose
summary names the technical error — never a 5xx. -/
theorem c1_transport_error_degraded_200 (content : String)
    (fetch : String → FetchOutcome) (serp : SerpOutcome) (m : String) :
    fullVerify content fetch serp (.transportErr m) =
      .ok ⟨"Unverified", 0, "Verification failed due to technical error: " ++ m,
        ((evidenceLoop fetch (search_related_news serp 10)).2).take 5⟩ := by
  rw [fullVerify_eq]
  unfold analyzeAndRespond
  rw [show groqVerifyNews (.transportErr m) = groqFallbackTech m from rfl]
  rw [mk_on_set_links (groqFallbackTech m)
    (((evidenceLoop fetch (search_related_news serp 10)).2).take 5) "Unverified" 0
    ("Verification failed due to technical error: " ++ m) rfl rfl rfl
    (by norm_num) (by norm_num)]
  rfl

/-- C6 counterexample: a parsed response that is valid JSON but misses the
required `verdict` key is not mapped to the malformed-response fallback —
it lands in the outer technical-error handler, whose summary
("Verification failed due to technical error: ...") does not state that
parsing failed. -/
theorem c6_counterexample :
    groqVerifyNews (.response (.parsed (.obj [("confidence", .num 50), ("summary", .str "s")])))
      = groqFallbackTech "Missing required field: verdict" ∧
    dictGet (groqVerifyNews
        (.response (.parsed (.obj [("confidence", .num 50), ("summary", .str "s")]))))
        "summary" =
      some (.str "Verification failed due to technical error: Missing required field: verdict") ∧
    "Verification failed due to technical error: Missing required field: verdict" ≠
      "Unable to verify: AI response parsing failed" :=
  ⟨rfl, rfl, by decide⟩

/-- C6 (amended): a response text that does not parse as JSON yields the
malformed-response fallback (verdict Unverified, confidence 0, summary
"Unable to verify: AI response parsing failed"); a parsed JSON object
missing a required key also yields verdict Unverified and confidence 0,
but through the outer handler, with summary "Verification failed due to
technical error: Missing required field: ..." — which does not state that
parsing failed. Neither case raises out of the analysis stage. -/
theorem c6_missing_keys_fallback (m : String) (d : List (String × Json)) :
    groqVerifyNews (.response (.jsonErr m)) = groqFallbackParse ∧
    dictGet groqFallbackParse "verdict" = some (.str "Unverified") ∧
    dictGet groqFallbackParse "confidence" = some (.num 0) ∧
    dictGet groqFallbackParse "summary" =
      some (.str "Unable to verify: AI response parsing failed") ∧
    (dictHas d "verdict" = false →
      groqVerifyNews (.response (.parsed (.obj d))) =
        groqFallbackTech "Missing required field: verdict") ∧
    (dictHas d "verdict" = true → dictHas d "confidence" = false →
      groqVerifyNews (.response (.parsed (.obj d))) =
        groqFallbackTech "Missing required field: confidence") ∧
    (dictHas d "verdict" = true → dictHas d "confidence" = true →
        dictHas d "summary" = false →
      groqVerifyNews (.response (.parsed (.obj d))) =
        groqFallbackTech "Missing required field: summary") ∧
    dictGet (groqFallbackTech "Missing required field: verdict") "summary" =
      some (.str "Verification failed due to technical error: Missing required field: verdict") := by
  refine ⟨rfl, rfl, rfl, rfl, ?_, ?_, ?_, rfl⟩
  · intro h1
    rw [groqVerifyNews_obj, if_pos h1]
  · intro h1 h2
    rw [groqVerifyNews_obj, if_neg (by simp [h1]), if_pos h2]
  · intro h1 h2 h3
    rw [groqVerifyNews_obj, if_neg (by simp [h1]), if_neg (by simp [h2]), if_pos h3]

/-- C6 witness: the amended missing-key branch applied to a concrete dict
missing `verdict`. -/
theorem c6_witness :
    groqVerifyNews (.response (.parsed (.obj [("confidence", Json.num 40),
        ("summary", Json.str "sum")]))) =
      groqFallbackTech "Missing required field: verdict" :=
  (c6_missing_keys_fallback "x"
    [("confidence", Json.num 40), ("summary", Json.str "sum")]).2.2.2.2.1 rfl

/-- C2 counterexample: the JSON string `"150"` in the `confidence` field is
a non-numeric JSON value, yet it does not produce confidence 0 via the
fallback — Python's `int("150")` succeeds and the value is clamped to 100. -/
theorem c2_counterexample :
    dictGet (groqVerifyNews (.response (.parsed (.obj
        [("verdict", .str "True"), ("confidence", .str "150"), ("summary", .str "x")]))))
      "confidence" = some (.num 100) ∧
    dictGet (groqVerifyNews (.response (.parsed (.obj
        [("verdict", .str "True"), ("confidence", .str "150"), ("summary", .str "x")]))))
      "confidence" ≠ some (.num 0) := by
  refine ⟨rfl, ?_⟩
  intro h
  have h' := Option.some.inj (rfl.trans h : some (Json.num 100) = some (Json.num 0))
  cases h'

/-- C2 (amended): for every collaborator outcome the confidence entry of
the analysis-stage result dict is an integer in `[0,100]`, and it is passed
unchanged into the aggregated `VerifyResponse`, whose confidence therefore
also lies in `[0,100]`. On a parsed object carrying the required keys, a
`confidence` value on which Python's `int()` succeeds (numbers, booleans,
integer-literal strings — the last also when the JSON value is non-numeric)
is clamped into `[0,100]`; only a value on which `int()` raises (other
strings, null, arrays, objects) produces confidence 0, via the outer
technical-error fallback rather than the parse-failure fallback. -/
theorem c2_confidence_clamped (call : GroqCall) :
    (∃ c : Int, dictGet (groqVerifyNews call) "confidence" = some (.num c) ∧
      0 ≤ c ∧ c ≤ 100) ∧
    (∀ d v, call = .response (.parsed (.obj d)) →
      dictHas d "verdict" = true → dictHas d "summary" = true →
      dictGet d "confidence" = some v →
      (∀ n, pyToInt v = some n →
        dictGet (groqVerifyNews call) "confidence" = some (.num (max 0 (min 100 n)))) ∧
      (pyToInt v = none →
        groqVerifyNews call = groqFallbackTech (PyErr.msg (pyIntErr v)))) ∧
    (∀ content fetch serp resp, fullVerify content fetch serp call = .ok resp →
      0 ≤ resp.confidence ∧ resp.confidence ≤ 100) := by
  refine ⟨groqConfInRange call, ?_, ?_⟩
  · intro d v hcall h1 h3 hget
    subst hcall
    have h2 : dictHas d "confidence" = true := by simp [dictHas, hget]
    have hv : (dictGet d "confidence").getD Json.null = v := by rw [hget]; rfl
    constructor
    · intro n hn
      rw [groqVerifyNews_obj, if_neg (by simp [h1]), if_neg (by simp [h2]),
        if_neg (by simp [h3]), hv, hn]
      dsimp only
      by_cases h4 :
          dictHas (dictSet d "confidence" (.num (max 0 (min 100 n)))) "evidence_links"
      · rw [if_pos h4]; exact dictGet_set_self _ _ _
      · rw [if_neg h4,
          dictGet_set_ne _ _ _ _ (by decide : "confidence" ≠ "evidence_links")]
        exact dictGet_set_self _ _ _
    · intro hn
      rw [groqVerifyNews_obj, if_neg (by simp [h1]), if_neg (by simp [h2]),
        if_neg (by simp [h3]), hv, hn]
  · intro content fetch serp resp h
    rw [fullVerify_eq] at h
    unfold analyzeAndRespond at h
    split at h
    case h_1 r heq =>
      cases h
      exact mkVerifyResponse_ok_confidence _ _ heq
    case h_2 => simp at h

/-- C2 witness: the amended clamping branch applied to a concrete response
dict with confidence 150, clamped to 100 in the result. -/
theorem c2_witness :
    dictGet (groqVerifyNews (.response (.parsed (.obj [("verdict", Json.str "False"),
        ("confidence", Json.num 150), ("summary", Json.str "w")])))) "confidence" =
      some (.num 100) := by
  have h := ((c2_confidence_clamped (.response (.parsed (.obj [("verdict", Json.str "False"),
    ("confidence", Json.num 150), ("summary", Json.str "w")])))).2.1
    [("verdict", Json.str "False"), ("confidence", Json.num 150), ("summary", Json.str "w")]
    (Json.num 150) rfl rfl rfl rfl).1 150 rfl
  simpa using h

/-- C3: for every verdict string returned by the analysis collaborator, the
validated verdict is one of exactly True / False / Misleading / Unverified;
an exact match is kept unchanged, otherwise a case-insensitive match is
coerced to its canonical spelling, otherwise the verdict defaults to
Unverified — and the validator is a total function, so no verdict string
raises. -/
theorem c3_verdict_normalized (v : String) :
    validate_verdict v ∈ allowedVerdicts ∧
    (v ∈ allowedVerdicts → validate_verdict v = v) ∧
    (v ∉ allowedVerdicts →
      ∀ a ∈ allowedVerdicts, pyLower v = pyLower a → validate_verdict v = a) ∧
    (v ∉ allowedVerdicts → (∀ a ∈ allowedVerdicts, pyLower v ≠ pyLower a) →
      validate_verdict v = "Unverified") := by
  by_cases hm : v ∈ allowedVerdicts
  · exact ⟨by simp [validate_verdict, hm], fun _ => by simp [validate_verdict, hm],
      fun h => absurd hm h, fun h => absurd hm h⟩
  · refine ⟨?_, fun h => absurd h hm, ?_, ?_⟩
    · simp only [validate_verdict, if_neg hm]
      cases hf : allowedVerdicts.find? (fun a => pyLower v == pyLower a) with
      | none => decide
      | some a => exact List.mem_of_find?_eq_some hf
    · intro _ a ha heq
      simp only [allowedVerdicts, List.mem_cons, List.not_mem_nil, or_false] at ha
      unfold validate_verdict
      rw [if_neg hm]
      rcases ha with h | h | h | h <;> subst h
      · have hl : (fun a => pyLower v == pyLower a) = (fun a => "true" == pyLower a) := by
          funext a
          rw [show pyLower v = "true" from by rw [heq]; rfl]
        rw [hl]
        rfl
      · have hl : (fun a => pyLower v == pyLower a) = (fun a => "false" == pyLower a) := by
          funext a
          rw [show pyLower v = "false" from by rw [heq]; rfl]
        rw [hl]
        rfl
      · have hl : (fun a => pyLower v == pyLower a) =
            (fun a => "misleading" == pyLower a) := by
          funext a
          rw [show pyLower v = "misleading" from by rw [heq]; rfl]
        rw [hl]
        rfl
      · have hl : (fun a => pyLower v == pyLower a) =
            (fun a => "unverified" == pyLower a) := by
          funext a
          rw [show pyLower v = "unverified" from by rw [heq]; rfl]
        rw [hl]
        rfl
    · intro _ hall
      unfold validate_verdict
      rw [if_neg hm]
      have hfind : allowedVerdicts.find? (fun a => pyLower v == pyLower a) = none := by
        apply List.find?_eq_none.mpr
        intro x hx
        simp only [allowedVerdicts, List.mem_cons, List.not_mem_nil, or_false] at hx
        rcases hx with h | h | h | h <;> subst h <;>
          simpa using hall _ (by decide)
      rw [hfind]

/-- C3 witness: the case-insensitive branch at the concrete input
`"TRUE"`, coerced to the canonical `"True"`. -/
theorem c3_witness : validate_verdict "TRUE" = "True" :=
  (c3_verdict_normalized "TRUE").2.2.1 (by decide) "True" (by decide) rfl

/-- C4: every successful response of the composed `/verify` pipeline has at
most 5 evidence links; they are exactly the first five discovered candidate
URLs whose article extraction succeeded, in discovery order, and every link
is a URL whose extraction returned non-null text. (The search-failure
fallback of main.py:175-180 — which would put a failed URL into
`evidence_links` — is unreachable, because `search_related_news` absorbs
collaborator failures into an empty list and never raises.) -/
theorem c4_evidence_links_invariant (content : String) (fetch : String → FetchOutcome)
    (serp : SerpOutcome) (call : GroqCall) (resp : VerifyResponse)
    (h : fullVerify content fetch serp call = .ok resp) :
    resp.evidence_links.length ≤ 5 ∧
    resp.evidence_links =
      (((search_related_news serp 10).map Article.url).filter
        (fun u => (extract_from_url fetch u).isSome)).take 5 ∧
    ∀ u ∈ resp.evidence_links, (extract_from_url fetch u).isSome := by
  have hlinks : resp.evidence_links =
      ((evidenceLoop fetch (search_related_news serp 10)).2).take 5 := by
    rw [fullVerify_eq] at h
    unfold analyzeAndRespond at h
    split at h
    case h_1 r heq =>
      cases h
      exact mkVerifyResponse_ok_links _ _ _ (dictGet_set_self _ _ _) heq
    case h_2 => simp at h
  rw [hlinks, evidenceLoop_links]
  refine ⟨List.length_take_le 5 _, rfl, ?_⟩
  intro u hu
  simpa using List.of_mem_filter (List.mem_of_mem_take hu)

/-- C4 witness: a concrete run with one search candidate whose extraction
succeeds; the response carries exactly that URL. -/
theorem c4_witness :
    (VerifyResponse.mk "True" 80 "ok" ["http://a.com/x"]).evidence_links.length ≤ 5 ∧
    (VerifyResponse.mk "True" 80 "ok" ["http://a.com/x"]).evidence_links =
      (((search_related_news
          (.ok ⟨some [⟨some "Title", some "http://a.com/x", some "Src", some "snip",
            some "d", none⟩], none⟩) 10).map Article.url).filter
        (fun u => (extract_from_url (fun _ => .page "T" "some body text") u).isSome)).take 5 ∧
    ∀ u ∈ (VerifyResponse.mk "True" 80 "ok" ["http://a.com/x"]).evidence_links,
      (extract_from_url (fun _ => .page "T" "some body text") u).isSome :=
  c4_evidence_links_invariant "Breaking news about the economy today"
    (fun _ => .page "T" "some body text")
    (.ok ⟨some [⟨some "Title", some "http://a.com/x", some "Src", some "snip",
      some "d", none⟩], none⟩)
    (.response (.parsed (.obj [("verdict", Json.str "True"), ("confidence", Json.num 80),
      ("summary", Json.str "ok")])))
    (VerifyResponse.mk "True" 80 "ok" ["http://a.com/x"]) rfl


/-- A lookup that misses the first list of an append falls to the second. -/
theorem lookup_append_none {β : Type} (k : String) :
    ∀ (l1 l2 : List (String × β)), l1.lookup k = none →
      (l1 ++ l2).lookup k = l2.lookup k := by
  intro l1
  induction l1 with
  | nil => intro l2 _; rfl
  | cons a l ih =>
    intro l2 h
    obtain ⟨b, c⟩ := a
    simp only [List.cons_append, List.lookup] at h ⊢
    cases hb : (k == b) with
    | true => rw [hb] at h; exact Option.noConfusion h
    | false => rw [hb] at h; exact ih l2 h

/-- Folding Python dict insertion over bindings with fresh, pairwise
distinct keys appends them in order. -/
theorem strDict_fold_fresh :
    ∀ (ps d : List (String × Option String)),
      (∀ k ∈ ps.map Prod.fst, d.lookup k = none) → (ps.map Prod.fst).Nodup →
      ps.foldl (fun d p => strDictSet d p.1 p.2) d = d ++ ps := by
  intro ps
  induction ps with
  | nil => intro d _ _; simp
  | cons p ps ih =>
    intro d hfresh hnd
    obtain ⟨k, v⟩ := p
    simp only [List.map_cons, List.nodup_cons] at hnd
    have hk : d.lookup k = none := hfresh k (by simp)
    simp only [List.foldl_cons]
    have hset : strDictSet d k v = d ++ [(k, v)] := by simp [strDictSet, hk]
    rw [hset]
    rw [ih (d ++ [(k, v)]) ?_ hnd.2]
    · simp
    · intro k' hk'
      have hne : k' ≠ k := fun e => hnd.1 (e ▸ hk')
      have h1 : d.lookup k' = none := hfresh k' (by simp [hk'])
      rw [lookup_append_none k' d [(k, v)] h1]
      have hb : (k' == k) = false := by simpa using hne
      simp [List.lookup, hb]

/-- On distinct URLs, `extract_multiple` is the graph of
`extract_from_url`. -/
theorem extract_multiple_eq (fetch : String → FetchOutcome) (urls : List String)
    (h : urls.Nodup) :
    extract_multiple fetch urls = urls.map (fun u => (u, extract_from_url fetch u)) := by
  unfold extract_multiple
  have hzip : ∀ l : List String, l.zip (l.map (fun u => extract_from_url fetch u)) =
      l.map (fun u => (u, extract_from_url fetch u)) := by
    intro l
    induction l with
    | nil => rfl
    | cons a t ih => simp only [List.map_cons, List.zip_cons_cons, ih]
  have hkeys : ∀ l : List String,
      (l.map (fun u => (u, extract_from_url fetch u))).map Prod.fst = l := by
    intro l
    induction l with
    | nil => rfl
    | cons a t ih => simp only [List.map_cons, ih]
  rw [hzip urls, strDict_fold_fresh _ [] (fun k _ => rfl) ?_]
  · simp
  · rw [hkeys urls]; exact h

/-- Looking up a member of a graph association list yields its image. -/
theorem lookup_graph (g : String → Option String) :
    ∀ (urls : List String) (u : String), u ∈ urls →
      (urls.map (fun x => (x, g x))).lookup u = some (g u) := by
  intro urls
  induction urls with
  | nil => intro u hu; cases hu
  | cons a l ih =>
    intro u hu
    simp only [List.map_cons, List.lookup]
    by_cases he : u = a
    · subst he; simp
    · have hb : (u == a) = false := by simpa using he
      rw [hb]
      exact ih u ((List.mem_cons.mp hu).resolve_left he)

/-- C5: for every batch of distinct URLs given to `extract_multiple`, the
result mapping has exactly one entry per input URL (N entries, keyed by the
inputs in order); exactly the URLs whose isolated extraction fails map to
null, and every other URL maps to the same text `extract_from_url` yields
for it in isolation — outcomes are independent per URL, so one member's
failure cannot affect the others. -/
theorem c5_extract_multiple_isolation (fetch : String → FetchOutcome) (urls : List String)
    (h : urls.Nodup) :
    (extract_multiple fetch urls).length = urls.length ∧
    (extract_multiple fetch urls).map Prod.fst = urls ∧
    (∀ u ∈ urls, (extract_multiple fetch urls).lookup u =
      some (extract_from_url fetch u)) ∧
    (∀ u ∈ urls, ((extract_multiple fetch urls).lookup u = some none ↔
      extract_from_url fetch u = none)) := by
  rw [extract_multiple_eq fetch urls h]
  have hkeys : ∀ l : List String,
      (l.map (fun u => (u, extract_from_url fetch u))).map Prod.fst = l := by
    intro l
    induction l with
    | nil => rfl
    | cons a t ih => simp only [List.map_cons, ih]
  refine ⟨by simp, hkeys urls, ?_, ?_⟩
  · intro u hu
    exact lookup_graph _ urls u hu
  · intro u hu
    rw [lookup_graph _ urls u hu]
    simp

/-- C5 witness: a two-URL batch where the second URL's extraction raises —
its entry is null, equal to its isolated extraction outcome. -/
theorem c5_witness :
    (extract_multiple
        (fun u => if u = "http://a.com" then FetchOutcome.page "T" "body text"
          else FetchOutcome.raised "boom")
        ["http://a.com", "http://b.com"]).lookup "http://b.com" =
      some (extract_from_url
        (fun u => if u = "http://a.com" then FetchOutcome.page "T" "body text"
          else FetchOutcome.raised "boom") "http://b.com") :=
  (c5_extract_multiple_isolation _ _ (by decide)).2.2.1 "http://b.com" (by decide)

/-- C7: for every URL-shaped input whose extraction fails — the underlying
fetch raises, or extraction returns nothing, or it returns text of at most
50 characters — content resolution (a total function, so it never raises)
sets the degradation flag and substitutes the synthetic query built from
the URL's host and its path with separators replaced by spaces
(main.py:139-144). A raising fetch is absorbed to `None` by
`extract_from_url` (extract.py:55-57), so it takes the same branch. -/
theorem c7_degraded_resolution (content : String) (fetch : String → FetchOutcome)
    (hu : isUrlContent content = true)
    (hfail : (∃ msg, fetch content = .raised msg) ∨
      extract_from_url fetch content = none ∨
      ∃ t, extract_from_url fetch content = some t ∧ t.length ≤ 50) :
    (resolveContent content fetch).extraction_failed = true ∧
    (resolveContent content fetch).main_content = degradedQuery content := by
  have hext : extract_from_url fetch content = none ∨
      ∃ t, extract_from_url fetch content = some t ∧ t.length ≤ 50 := by
    rcases hfail with ⟨msg, hm⟩ | h | h
    · left
      unfold extract_from_url extractSync
      rw [hm]
    · left; exact h
    · right; exact h
  unfold resolveContent resolveWith
  rcases hext with h | ⟨t, ht, hlen⟩
  · rw [h, hu]
    exact ⟨rfl, rfl⟩
  · rw [ht, hu]
    dsimp only
    have hnl : ¬(50 < t.length) := by omega
    rw [if_neg hnl]
    exact ⟨rfl, rfl⟩

/-- C7 witness: the spec scenario — a story URL whose extraction yields
only 11 characters resolves to the degraded host-and-path query. -/
theorem c7_witness :
    (resolveContent "https://news.example.com/story-1"
        (fun _ => FetchOutcome.page "" "short text.")).extraction_failed = true ∧
    (resolveContent "https://news.example.com/story-1"
        (fun _ => FetchOutcome.page "" "short text.")).main_content =
      degradedQuery "https://news.example.com/story-1" :=
  c7_degraded_resolution "https://news.example.com/story-1"
    (fun _ => FetchOutcome.page "" "short text.") rfl
    (Or.inr (Or.inr ⟨"short text.", rfl, by decide⟩))

/-- Words produced by the split worker are nonempty and whitespace-free. -/
theorem splitWsAux_words :
    ∀ (cs acc : List Char), (∀ c ∈ acc, c.isWhitespace = false) →
      ∀ w ∈ splitWsAux cs acc, w ≠ [] ∧ ∀ c ∈ w, c.isWhitespace = false := by
  intro cs
  induction cs with
  | nil =>
    intro acc hacc w hw
    simp only [splitWsAux] at hw
    by_cases ha : acc = []
    · simp [ha] at hw
    · rw [if_neg ha] at hw
      simp only [List.mem_singleton] at hw
      subst hw
      refine ⟨by simpa using ha, ?_⟩
      intro c hc
      exact hacc c (by simpa using hc)
  | cons c cs ih =>
    intro acc hacc w hw
    simp only [splitWsAux] at hw
    by_cases hws : c.isWhitespace
    · rw [if_pos hws] at hw
      by_cases ha : acc = []
      · rw [if_pos ha] at hw
        exact ih [] (by simp) w hw
      · rw [if_neg ha] at hw
        rcases List.mem_cons.mp hw with h | h
        · subst h
          refine ⟨by simpa using ha, ?_⟩
          intro x hx
          exact hacc x (by simpa using hx)
        · exact ih [] (by simp) w h
    · rw [if_neg hws] at hw
      refine ih (c :: acc) ?_ w hw
      intro x hx
      rcases List.mem_cons.mp hx with h | h
      · subst h; simpa using hws
      · exact hacc x h

/-- Splitting consumes a whitespace-free chunk into the accumulator. -/
theorem splitWsAux_word_chunk :
    ∀ (w rest acc : List Char), (∀ c ∈ w, c.isWhitespace = false) →
      splitWsAux (w ++ rest) acc = splitWsAux rest (w.reverse ++ acc) := by
  intro w
  induction w with
  | nil => intro rest acc _; simp
  | cons c w ih =>
    intro rest acc hw
    have hc : c.isWhitespace = false := hw c (by simp)
    simp only [List.cons_append, splitWsAux, hc, Bool.false_eq_true, if_false]
    rw [show (c :: w).reverse ++ acc = w.reverse ++ (c :: acc) by simp [List.append_assoc]]
    exact ih rest (c :: acc) (fun x hx => hw x (by simp [hx]))

/-- Splitting at a space flushes a nonempty accumulator. -/
theorem splitWsAux_sep (rest acc : List Char) (ha : acc ≠ []) :
    splitWsAux (' ' :: rest) acc = acc.reverse :: splitWsAux rest [] := by
  simp only [splitWsAux]
  rw [if_pos (by decide : (' '.isWhitespace) = true), if_neg ha]

/-- Python `split` is a left inverse of the space-join on lists of
nonempty, whitespace-free words. -/
theorem split_join (ws : List (List Char))
    (hw : ∀ w ∈ ws, w ≠ [] ∧ ∀ c ∈ w, c.isWhitespace = false) :
    pySplitWsL (joinSpL ws) = ws := by
  induction ws with
  | nil => rfl
  | cons w ws ih =>
    cases ws with
    | nil =>
      have hw1 := hw w (by simp)
      unfold pySplitWsL
      rw [show joinSpL [w] = w ++ [] by simp [joinSpL],
        splitWsAux_word_chunk w [] [] hw1.2]
      simp only [splitWsAux, List.append_nil]
      rw [if_neg (by simpa using hw1.1)]
      simp
    | cons v vs =>
      have hw1 := hw w (by simp)
      unfold pySplitWsL
      rw [show joinSpL (w :: v :: vs) = w ++ (' ' :: joinSpL (v :: vs)) from rfl,
        splitWsAux_word_chunk w _ [] hw1.2, List.append_nil,
        splitWsAux_sep _ _ (by simpa using hw1.1), List.reverse_reverse]
      congr 1
      exact ih (fun x hx => hw x (by simp [hx]))

/-- `dropWhile` skips a block on which the predicate holds. -/
theorem dropWhile_append_all {p : Char → Bool} :
    ∀ (l r : List Char), (∀ c ∈ l, p c = true) → (l ++ r).dropWhile p = r.dropWhile p := by
  intro l
  induction l with
  | nil => intro r _; rfl
  | cons c l ih =>
    intro r h
    have hc := h c (by simp)
    simp only [List.cons_append, List.dropWhile_cons, hc, if_true]
    exact ih r (fun x hx => h x (by simp [hx]))

/-- `dropWhile` that stops inside the first block leaves the rest intact. -/
theorem dropWhile_append_stop {p : Char → Bool} :
    ∀ (l r : List Char), (∃ c ∈ l, p c = false) →
      (l ++ r).dropWhile p = l.dropWhile p ++ r := by
  intro l
  induction l with
  | nil => intro r h; simp at h
  | cons c l ih =>
    intro r h
    by_cases hc : p c = true
    · simp only [List.cons_append, List.dropWhile_cons, hc, if_true]
      apply ih
      rcases h with ⟨x, hx, hpx⟩
      rcases List.mem_cons.mp hx with he | he
      · subst he; rw [hc] at hpx; cases hpx
      · exact ⟨x, he, hpx⟩
    · have hc' : p c = false := by simpa using hc
      simp [List.dropWhile_cons, hc']

/-- `dropWhile` never lengthens a list. -/
theorem dropWhile_length_le (p : Char → Bool) :
    ∀ l : List Char, (l.dropWhile p).length ≤ l.length := by
  intro l
  induction l with
  | nil => simp
  | cons c l ih =>
    rw [List.dropWhile_cons]
    by_cases hc : p c = true
    · rw [if_pos hc]
      simp only [List.length_cons]
      omega
    · rw [if_neg hc]

/-- The last-space cut never lengthens a string. -/
theorem lastSpaceCutL_length_le (t : List Char) : (lastSpaceCutL t).length ≤ t.length := by
  unfold lastSpaceCutL
  by_cases h : ' ' ∈ t
  · rw [if_pos h]
    simp only [List.length_reverse, List.length_drop]
    have := dropWhile_length_le (fun c => !(c == ' ')) t.reverse
    simp only [List.length_reverse] at this
    omega
  · rw [if_neg h]

/-- Cutting at the last space when the suffix after a space is space-free
keeps exactly the part before that space. -/
theorem lastSpaceCut_append_nospace (xs ys : List Char) (hy : ' ' ∉ ys) :
    lastSpaceCutL (xs ++ ' ' :: ys) = xs := by
  unfold lastSpaceCutL
  rw [if_pos (by simp), List.reverse_append, List.reverse_cons, List.append_assoc,
    dropWhile_append_all ys.reverse ([' '] ++ xs.reverse) ?_]
  · simp only [List.singleton_append, List.dropWhile_cons]
    rw [show ((!(' ' == ' ')) = false) from rfl]
    simp
  · intro c hc
    have hne : c ≠ ' ' := by
      intro e
      exact hy (by simpa [e] using hc)
    cases hce : (c == ' ') with
    | true => exact absurd (by simpa using hce) hne
    | false => simp [hce]

/-- Cutting at the last space distributes over an earlier chunk when a
later space exists. -/
theorem lastSpaceCut_append_space (xs ys : List Char) (hy : ' ' ∈ ys) :
    lastSpaceCutL (xs ++ ' ' :: ys) = xs ++ ' ' :: lastSpaceCutL ys := by
  unfold lastSpaceCutL
  rw [if_pos (by simp), if_pos hy, List.reverse_append, List.reverse_cons,
    List.append_assoc,
    dropWhile_append_stop ys.reverse ([' '] ++ xs.reverse)
      ⟨' ', by simpa using hy, by simp⟩]
  have hne : ys.reverse.dropWhile (fun c => !(c == ' ')) ≠ [] := by
    intro hnil
    have hall := List.dropWhile_eq_nil_iff.mp hnil ' ' (by simpa using hy)
    simp at hall
  obtain ⟨a, as, ha⟩ := List.exists_cons_of_ne_nil hne
  rw [ha]
  simp [List.reverse_append, List.append_assoc]

/-- Space-join of a cons with a nonempty tail. -/
theorem joinSp_cons_ne (w : List Char) (l : List (List Char)) (h : l ≠ []) :
    joinSpL (w :: l) = w ++ ' ' :: joinSpL l := by
  cases l with
  | nil => exact absurd rfl h
  | cons v vs => rfl

/-- Core truncation lemma: when the 150-character prefix of a join of
nonempty space-free words contains a space, cutting it back at the last
space yields the join of a nonempty prefix of the word list — i.e. a cut at
a word boundary, never inside a word. -/
theorem joinCutSpace (ws : List (List Char)) :
    ∀ n : Nat, (∀ w ∈ ws, w ≠ [] ∧ ' ' ∉ w) → n < (joinSpL ws).length →
      ' ' ∈ (joinSpL ws).take n →
      ∃ k, k ≠ 0 ∧ lastSpaceCutL ((joinSpL ws).take n) = joinSpL (ws.take k) ∧
        joinSpL (ws.take k) ≠ [] := by
  induction ws with
  | nil =>
    intro n _ hn _
    simp [joinSpL] at hn
  | cons w1 rest ih =>
    intro n hw hn hsp
    have hw1 := hw w1 (by simp)
    by_cases hle : n ≤ w1.length
    · exfalso
      have htk : (joinSpL (w1 :: rest)).take n = w1.take n := by
        cases rest with
        | nil =>
          rw [show joinSpL [w1] = w1 from rfl]
        | cons v vs =>
          rw [joinSp_cons_ne w1 (v :: vs) (by simp), List.take_append_eq_append_take,
            Nat.sub_eq_zero_of_le hle, List.take_zero, List.append_nil]
      rw [htk] at hsp
      exact hw1.2 (List.mem_of_mem_take hsp)
    · have hlt : w1.length < n := by omega
      have hrest : rest ≠ [] := by
        intro he
        subst he
        rw [show joinSpL [w1] = w1 from rfl] at hn
        omega
      obtain ⟨v, vs, he⟩ := List.exists_cons_of_ne_nil hrest
      subst he
      obtain ⟨m, hm⟩ : ∃ m, n - w1.length = m + 1 := ⟨n - w1.length - 1, by omega⟩
      have hq : (joinSpL (w1 :: v :: vs)).take n =
          w1 ++ ' ' :: (joinSpL (v :: vs)).take (n - w1.length - 1) := by
        rw [joinSp_cons_ne w1 (v :: vs) (by simp), List.take_append_eq_append_take,
          List.take_of_length_le (by omega), hm, List.take_succ_cons]
        simp only [Nat.add_sub_cancel]
      rw [hq] at hsp ⊢
      by_cases hsp2 : ' ' ∈ (joinSpL (v :: vs)).take (n - w1.length - 1)
      · have hlen2 : n - w1.length - 1 < (joinSpL (v :: vs)).length := by
          have hql : (joinSpL (w1 :: v :: vs)).length =
              w1.length + 1 + (joinSpL (v :: vs)).length := by
            rw [joinSp_cons_ne w1 (v :: vs) (by simp)]
            simp only [List.length_append, List.length_cons]
            omega
          omega
        obtain ⟨k, hk0, hkeq, hkne⟩ :=
          ih (n - w1.length - 1) (fun x hx => hw x (by simp [hx])) hlen2 hsp2
        have hXne : (v :: vs).take k ≠ [] := by
          cases k with
          | zero => exact absurd rfl hk0
          | succ k' => simp
        refine ⟨k + 1, Nat.succ_ne_zero k, ?_, ?_⟩
        · rw [lastSpaceCut_append_space w1 _ hsp2, hkeq, List.take_succ_cons,
            joinSp_cons_ne _ _ hXne]
        · rw [List.take_succ_cons, joinSp_cons_ne _ _ hXne]
          simp [hw1.1]
      · refine ⟨1, one_ne_zero, ?_, ?_⟩
        · rw [lastSpaceCut_append_nospace w1 _ hsp2]
          rfl
        · show joinSpL ((w1 :: v :: vs).take 1) ≠ []
          simpa using hw1.1

/-- A nonempty list has a nonempty positive take. -/
theorem take_ne_nil_of_ne_nil {l : List Char} (h : l ≠ []) {n : Nat} (hn : n ≠ 0) :
    l.take n ≠ [] := by
  cases l with
  | nil => exact absurd rfl h
  | cons a t =>
    cases n with
    | zero => exact absurd rfl hn
    | succ m => simp

/-- A prefix of a take is a prefix of the whole list. -/
theorem isPrefixOf_take :
    ∀ (p w : List Char) (n : Nat), p.isPrefixOf (w.take n) = true →
      p.isPrefixOf w = true := by
  intro p
  induction p with
  | nil => intro w n _; cases w <;> rfl
  | cons a p ih =>
    intro w n h
    cases w with
    | nil => simp at h
    | cons b w =>
      cases n with
      | zero => simp [List.isPrefixOf] at h
      | succ m =>
        rw [List.take_succ_cons] at h
        simp only [List.isPrefixOf, Bool.and_eq_true] at h ⊢
        exact ⟨h.1, ih w m h.2⟩

/-- URL-shaped-ness of a token is inherited upward from its takes. -/
theorem urlTokenL_take {w : List Char} {n : Nat} (h : urlTokenL w = false) :
    urlTokenL (w.take n) = false := by
  simp only [urlTokenL, Bool.or_eq_false_iff] at h ⊢
  refine ⟨⟨?_, ?_⟩, ?_⟩ <;>
  · cases hp : List.isPrefixOf _ (w.take n) with
    | false => rfl
    | true =>
      have := isPrefixOf_take _ w n hp
      simp_all

/-- C8 (amended): for every input, the prepared search query is at most 150
characters long and none of its whitespace-delimited tokens starts with
`http://`, `https://` or `www.`. When the cleaned, rejoined query exceeds
150 characters and its 150-character prefix contains a space, the query is
cut back to a word boundary — it is the join of a nonempty prefix of the
cleaned word list, never a mid-word truncation. But when that prefix
contains no space (a first word of at least 150 characters), the query is
the first word truncated mid-word at 150 characters — the whitespace-
boundary guarantee of the original claim does not hold there. -/
theorem c8_query_preparation (cs : List Char) :
    (prepareSearchQueryL cs).length ≤ 150 ∧
    (∀ w ∈ pySplitWsL (prepareSearchQueryL cs), urlTokenL w = false) ∧
    ((joinSpL (wordsOfL cs)).length ≤ 150 →
      prepareSearchQueryL cs = joinSpL (wordsOfL cs)) ∧
    (150 < (joinSpL (wordsOfL cs)).length →
      ' ' ∈ (joinSpL (wordsOfL cs)).take 150 →
      ∃ k, k ≠ 0 ∧ prepareSearchQueryL cs = joinSpL ((wordsOfL cs).take k)) ∧
    (150 < (joinSpL (wordsOfL cs)).length →
      ' ' ∉ (joinSpL (wordsOfL cs)).take 150 →
      ∃ w1 rest, wordsOfL cs = w1 :: rest ∧ 150 ≤ w1.length ∧
        prepareSearchQueryL cs = w1.take 150) := by
  have hwords : ∀ w ∈ wordsOfL cs, w ≠ [] ∧ ∀ c ∈ w, c.isWhitespace = false := by
    intro w hw
    exact splitWsAux_words (pyStripL (cs.take 200)) [] (by simp) w
      (List.mem_of_mem_filter hw)
  have hwsp : ∀ w ∈ wordsOfL cs, w ≠ [] ∧ ' ' ∉ w := by
    intro w hw
    refine ⟨(hwords w hw).1, fun hsp => ?_⟩
    have := (hwords w hw).2 ' ' hsp
    simp at this
  have hurl : ∀ w ∈ wordsOfL cs, urlTokenL w = false := by
    intro w hw
    have := List.of_mem_filter hw
    simpa using this
  by_cases hq : 150 < (joinSpL (wordsOfL cs)).length
  case neg =>
    have hpe : prepareSearchQueryL cs = joinSpL (wordsOfL cs) := by
      unfold prepareSearchQueryL
      rw [if_neg hq]
    refine ⟨by rw [hpe]; omega, ?_, fun _ => hpe, fun h => absurd h hq,
      fun h => absurd h hq⟩
    rw [hpe, split_join _ hwords]
    exact hurl
  case pos =>
    by_cases hsp : ' ' ∈ (joinSpL (wordsOfL cs)).take 150
    · obtain ⟨k, hk0, hkeq, hkne⟩ := joinCutSpace (wordsOfL cs) 150 hwsp hq hsp
      have hpe : prepareSearchQueryL cs = joinSpL ((wordsOfL cs).take k) := by
        unfold prepareSearchQueryL
        rw [if_pos hq, hkeq]
      have hsub : ∀ w ∈ (wordsOfL cs).take k, w ≠ [] ∧ ∀ c ∈ w, c.isWhitespace = false :=
        fun w hw => hwords w (List.mem_of_mem_take hw)
      refine ⟨?_, ?_, fun hle => absurd hle (by omega), fun _ _ => ⟨k, hk0, hpe⟩,
        fun _ hns => absurd hsp hns⟩
      · rw [hpe, ← hkeq]
        exact le_trans (lastSpaceCutL_length_le _) (List.length_take_le 150 _)
      · rw [hpe, split_join _ hsub]
        exact fun w hw => hurl w (List.mem_of_mem_take hw)
    · cases hws : wordsOfL cs with
      | nil =>
        rw [hws] at hq
        simp [joinSpL] at hq
      | cons w1 rest =>
        rw [hws] at hsp hq hwsp hwords hurl
        have hw1 : w1 ≠ [] ∧ ' ' ∉ w1 := hwsp w1 (by simp)
        have h150 : 150 ≤ w1.length := by
          by_contra hlt
          push_neg at hlt
          cases rest with
          | nil =>
            rw [show joinSpL [w1] = w1 from rfl] at hq
            omega
          | cons v vs =>
            apply hsp
            rw [joinSp_cons_ne w1 (v :: vs) (by simp),
              List.take_append_eq_append_take]
            refine List.mem_append.mpr (Or.inr ?_)
            obtain ⟨m, hm⟩ : ∃ m, 150 - w1.length = m + 1 := ⟨150 - w1.length - 1, by omega⟩
            rw [hm, List.take_succ_cons]
            simp
        have htake : (joinSpL (w1 :: rest)).take 150 = w1.take 150 := by
          cases rest with
          | nil => rw [show joinSpL [w1] = w1 from rfl]
          | cons v vs =>
            rw [joinSp_cons_ne w1 (v :: vs) (by simp), List.take_append_eq_append_take,
              Nat.sub_eq_zero_of_le h150, List.take_zero, List.append_nil]
        have hnsp : ' ' ∉ w1.take 150 := fun hmem => hw1.2 (List.mem_of_mem_take hmem)
        have hcut : prepareSearchQueryL cs = w1.take 150 := by
          unfold prepareSearchQueryL
          rw [hws, if_pos hq, htake]
          unfold lastSpaceCutL
          rw [if_neg hnsp]
        have htk_ne : w1.take 150 ≠ [] := take_ne_nil_of_ne_nil hw1.1 (by omega)
        have htk_wsfree : ∀ c ∈ w1.take 150, c.isWhitespace = false := fun c hc =>
          (hwords w1 (by simp)).2 c (List.mem_of_mem_take hc)
        refine ⟨?_, ?_, fun hle => absurd hle (by omega), fun _ hsp2 => absurd hsp2 hsp,
          fun _ _ => ⟨w1, rest, rfl, h150, hcut⟩⟩
        · rw [hcut]
          exact List.length_take_le 150 _
        · rw [hcut]
          have hsplit1 : pySplitWsL (w1.take 150) = [w1.take 150] := by
            have hsj := split_join [w1.take 150] ?_
            · rw [show joinSpL [w1.take 150] = w1.take 150 from rfl] at hsj
              exact hsj
            · intro w hw
              simp only [List.mem_singleton] at hw
              subst hw
              exact ⟨htk_ne, htk_wsfree⟩
          rw [hsplit1]
          intro w hw
          simp only [List.mem_singleton] at hw
          subst hw
          exact urlTokenL_take (hurl w1 (by simp))

set_option maxRecDepth 8000 in
/-- C8 counterexample: a single 160-character word (no whitespace at all).
The cleaned word list is exactly that word, and the prepared query is its
first 150 characters — a nonempty strict prefix of the word, i.e. a
truncation mid-word rather than a cut back to a whitespace boundary. -/
theorem c8_counterexample :
    prepareSearchQueryL (List.replicate 160 'a') = List.replicate 150 'a' ∧
    wordsOfL (List.replicate 160 'a') = [List.replicate 160 'a'] ∧
    List.replicate 150 'a' ≠ List.replicate 160 'a' ∧
    List.replicate 150 'a' ≠ ([] : List Char) :=
  ⟨rfl, rfl, by decide, by decide⟩

/-- C8 witness: a short input is passed through as the join of its cleaned
words, by the amended theorem's no-truncation branch. -/
theorem c8_witness :
    prepareSearchQueryL ("economy news update".toList) =
      joinSpL (wordsOfL ("economy news update".toList)) :=
  (c8_query_preparation ("economy news update".toList)).2.2.1 (by decide)
